import Mathlib

/-!
Verification of the `anytime-rs` result holder (`src/lib.rs`).

The Rust type `Anytime<T: Clone>` holds
  * `current_best : Mutex<Option<T>>` — the candidate slot, and
  * `value_locked : AtomicBool` — the frozen flag.

We embed a holder state as a structure carrying the candidate, the frozen
flag, and a boolean recording whether the mutex is poisoned (in Rust a
mutex becomes poisoned when a thread panics while holding it; none of the
holder's own operations poison it, so within a trace of holder operations
the flag is constant).  Each Rust method becomes a Lean function in
state-passing style: it returns its output paired with the successor
state.  A panic is modelled as the output `none` of an `Option`-valued
result.
-/

/-- State of a Rust `Anytime<T>` value: the contents of the
`current_best` mutex slot, the `value_locked` atomic flag, and whether
the mutex is poisoned. -/
structure Anytime (T : Type) where
  current_best : Option T
  value_locked : Bool
  poisoned : Bool
deriving DecidableEq, Repr

namespace Anytime

variable {T : Type}

/-- Embeds `Anytime::new`: `current_best = Mutex::new(None)`,
`value_locked = AtomicBool::new(false)`; a fresh mutex is not poisoned. -/
def new : Anytime T :=
  { current_best := none, value_locked := false, poisoned := false }

/-- Embeds `Anytime::is_final`: `self.value_locked.load(Ordering::Relaxed)`.
The method only performs an atomic load, so the state is returned
unchanged. -/
def is_final (a : Anytime T) : Bool × Anytime T :=
  (a.value_locked, a)

/-- Embeds `Anytime::is_ready`:
`self.is_final() || self.current_best.lock().unwrap().is_some()`.
The `||` short-circuits, so the lock is only taken when `is_final()` is
false; in that case `.unwrap()` panics if the mutex is poisoned, which we
model as the output `none`.  Inspecting the guard does not mutate it. -/
def is_ready (a : Anytime T) : Option Bool × Anytime T :=
  if (a.is_final).1 then (some true, a)
  else if a.poisoned then (none, a)
  else (some a.current_best.isSome, a)

/-- Embeds `Anytime::get_result`: on `Ok(guard)` it stores `true` into
`value_locked` and returns `guard.clone()`; on `Err` (poisoned mutex) it
logs and returns `None`, leaving the state untouched. -/
def get_result (a : Anytime T) : Option T × Anytime T :=
  if a.poisoned then (none, a)
  else (a.current_best, { a with value_locked := true })

/-- Embeds `Anytime::update_result`: on `Ok(mut guard)`, if
`value_locked` is false it does `guard.replace(better_result)`
(setting the slot to `Some better_result`), otherwise it only logs; on
`Err` (poisoned mutex) it logs and mutates nothing. -/
def update_result (a : Anytime T) (better_result : T) : Anytime T :=
  if a.poisoned then a
  else if !a.value_locked then { a with current_best := some better_result }
  else a

end Anytime

/-- One call on a shared `Anytime` holder. -/
inductive Op (T : Type) where
  | update (v : T)
  | commit
  | ready
  | final
deriving DecidableEq, Repr

/-- State reached after one operation (outputs discarded). -/
def step {T : Type} (a : Anytime T) : Op T → Anytime T
  | .update v => a.update_result v
  | .commit => (a.get_result).2
  | .ready => (a.is_ready).2
  | .final => (a.is_final).2

/-- State reached after a sequence of operations. -/
def run {T : Type} (a : Anytime T) (ops : List (Op T)) : Anytime T :=
  ops.foldl step a

@[simp] theorem run_nil {T : Type} (a : Anytime T) : run a [] = a := rfl

@[simp] theorem run_cons {T : Type} (a : Anytime T) (op : Op T)
    (ops : List (Op T)) : run a (op :: ops) = run (step a op) ops := rfl

/-- No operation changes the poison status of the mutex. -/
theorem step_poisoned {T : Type} (a : Anytime T) (op : Op T) :
    (step a op).poisoned = a.poisoned := by
  cases op with
  | update v =>
      simp only [step, Anytime.update_result]
      split <;> [rfl; skip]
      split <;> rfl
  | commit =>
      simp only [step, Anytime.get_result]
      split <;> rfl
  | ready =>
      simp only [step, Anytime.is_ready]
      split <;> [rfl; skip]
      split <;> rfl
  | final => rfl

theorem run_poisoned {T : Type} (a : Anytime T) (ops : List (Op T)) :
    (run a ops).poisoned = a.poisoned := by
  induction ops generalizing a with
  | nil => rfl
  | cons op ops ih => rw [run_cons, ih, step_poisoned]

/-- The frozen flag never goes back from true to false in one step. -/
theorem step_locked_mono {T : Type} (a : Anytime T) (op : Op T)
    (h : a.value_locked = true) : (step a op).value_locked = true := by
  cases op with
  | update v =>
      simp only [step, Anytime.update_result, h]
      split <;> simp [h]
  | commit =>
      simp only [step, Anytime.get_result]
      split <;> simp [h]
  | ready =>
      simp only [step, Anytime.is_ready]
      split <;> [exact h; skip]
      split <;> exact h
  | final => exact h

theorem run_locked_mono {T : Type} (a : Anytime T) (ops : List (Op T))
    (h : a.value_locked = true) : (run a ops).value_locked = true := by
  induction ops generalizing a with
  | nil => exact h
  | cons op ops ih => exact ih _ (step_locked_mono a op h)

/-- Once frozen, a single operation leaves the candidate slot unchanged. -/
theorem step_frozen_candidate {T : Type} (a : Anytime T) (op : Op T)
    (h : a.value_locked = true) : (step a op).current_best = a.current_best := by
  cases op with
  | update v =>
      simp only [step, Anytime.update_result, h]
      split <;> simp
  | commit =>
      simp only [step, Anytime.get_result]
      split <;> rfl
  | ready =>
      simp only [step, Anytime.is_ready]
      split <;> [rfl; skip]
      split <;> rfl
  | final => rfl

theorem run_frozen_candidate {T : Type} (a : Anytime T) (ops : List (Op T))
    (h : a.value_locked = true) : (run a ops).current_best = a.current_best := by
  induction ops generalizing a with
  | nil => rfl
  | cons op ops ih =>
      rw [run_cons, ih _ (step_locked_mono a op h), step_frozen_candidate a op h]

/-- A present candidate is never removed by one step. -/
theorem step_isSome_mono {T : Type} (a : Anytime T) (op : Op T)
    (h : a.current_best.isSome = true) :
    (step a op).current_best.isSome = true := by
  cases op with
  | update v =>
      simp only [step, Anytime.update_result]
      split <;> [exact h; skip]
      split <;> simp [h]
  | commit =>
      simp only [step, Anytime.get_result]
      split <;> simp [h]
  | ready =>
      simp only [step, Anytime.is_ready]
      split <;> [exact h; skip]
      split <;> exact h
  | final => exact h

theorem run_isSome_mono {T : Type} (a : Anytime T) (ops : List (Op T))
    (h : a.current_best.isSome = true) :
    (run a ops).current_best.isSome = true := by
  induction ops generalizing a with
  | nil => exact h
  | cons op ops ih => exact ih _ (step_isSome_mono a op h)

/-- List of states visited while running a sequence of operations,
starting state included. -/
def states {T : Type} (a : Anytime T) : List (Op T) → List (Anytime T)
  | [] => [a]
  | op :: ops => a :: states (step a op) ops

/-- Number of false-to-true transitions between adjacent entries of a
boolean trajectory. -/
def risingEdges : List Bool → Nat
  | b :: b' :: rest => (if !b && b' then 1 else 0) + risingEdges (b' :: rest)
  | _ => 0

theorem states_head {T : Type} (a : Anytime T) (ops : List (Op T)) :
    ∃ t, states a ops = a :: t := by
  cases ops <;> exact ⟨_, rfl⟩

theorem states_all_locked {T : Type} (a : Anytime T) (ops : List (Op T))
    (h : a.value_locked = true) :
    ∀ s ∈ states a ops, s.value_locked = true := by
  induction ops generalizing a with
  | nil =>
      intro s hs
      simp only [states, List.mem_singleton] at hs
      exact hs ▸ h
  | cons op ops ih =>
      intro s hs
      simp only [states, List.mem_cons] at hs
      rcases hs with hs | hs
      · exact hs ▸ h
      · exact ih _ (step_locked_mono a op h) s hs

theorem risingEdges_of_forall_true (l : List Bool)
    (h : ∀ b ∈ l, b = true) : risingEdges l = 0 := by
  induction l with
  | nil => rfl
  | cons b rest ih =>
      cases rest with
      | nil => rfl
      | cons b' rest' =>
          have hb : b = true := h b (List.mem_cons_self _ _)
          have : risingEdges (b' :: rest') = 0 :=
            ih (fun x hx => h x (List.mem_cons_of_mem _ hx))
          simp [risingEdges, hb, this]

theorem risingEdges_states_le_one {T : Type} (a : Anytime T)
    (ops : List (Op T)) :
    risingEdges ((states a ops).map (fun s => s.value_locked)) ≤ 1 := by
  induction ops generalizing a with
  | nil => simp [states, risingEdges]
  | cons op ops ih =>
      obtain ⟨t, ht⟩ := states_head (step a op) ops
      by_cases h : a.value_locked
      · have hall : ∀ b ∈ (states a (op :: ops)).map (fun s => s.value_locked),
            b = true := by
          intro b hb
          obtain ⟨s, hs, rfl⟩ := List.mem_map.mp hb
          exact states_all_locked a (op :: ops) h s hs
        simp [risingEdges_of_forall_true _ hall]
      · by_cases h' : (step a op).value_locked
        · have hall : ∀ b ∈ (states (step a op) ops).map (fun s => s.value_locked),
              b = true := by
            intro b hb
            obtain ⟨s, hs, rfl⟩ := List.mem_map.mp hb
            exact states_all_locked _ ops h' s hs
          have h0 := risingEdges_of_forall_true _ hall
          simp only [states, List.map_cons, ht] at h0 ⊢
          rw [h'] at h0
          simp [risingEdges, h, h', h0]
        · have h1 := ih (step a op)
          simp only [states, List.map_cons, ht] at h1 ⊢
          simpa [risingEdges, h, h'] using h1

/-- C1: the frozen flag (`value_locked`) transitions false → true at most
once along any sequence of operations and never goes back to false (it
stays true once set), and once it is true every later operation — in
particular every `update_result` — leaves the stored candidate
unchanged. -/
theorem frozen_is_permanent_and_candidate_immutable {T : Type}
    (a : Anytime T) (ops : List (Op T)) (h : a.value_locked = true) :
    risingEdges ((states a ops).map (fun s => s.value_locked)) ≤ 1
    ∧ (run a ops).value_locked = true
    ∧ (run a ops).current_best = a.current_best :=
  ⟨risingEdges_states_le_one a ops, run_locked_mono a ops h,
    run_frozen_candidate a ops h⟩

theorem frozen_is_permanent_and_candidate_immutable_witness :
    ((⟨some 3, true, false⟩ : Anytime Nat).value_locked = true)
    ∧ (risingEdges ((states (⟨some 3, true, false⟩ : Anytime Nat)
          [Op.update 7, Op.commit]).map (fun s => s.value_locked)) ≤ 1
      ∧ (run (⟨some 3, true, false⟩ : Anytime Nat)
          [Op.update 7, Op.commit]).value_locked = true
      ∧ (run (⟨some 3, true, false⟩ : Anytime Nat)
          [Op.update 7, Op.commit]).current_best
          = (⟨some 3, true, false⟩ : Anytime Nat).current_best) :=
  ⟨rfl, frozen_is_permanent_and_candidate_immutable _ [Op.update 7, Op.commit] rfl⟩

/-- C2: after a successful `get_result` (lock not poisoned) returning a
value, every later sequence of operations leaves the candidate unchanged
and every later `get_result` returns exactly the same value. -/
theorem commit_value_is_stable {T : Type} (a : Anytime T)
    (ops : List (Op T)) (h : a.poisoned = false) :
    (run (a.get_result).2 ops).current_best = (a.get_result).2.current_best
    ∧ ((run (a.get_result).2 ops).get_result).1 = (a.get_result).1 := by
  have h2 : (a.get_result).2 = { a with value_locked := true } := by
    simp [Anytime.get_result, h]
  have hv : (a.get_result).1 = a.current_best := by
    simp [Anytime.get_result, h]
  have hl : (a.get_result).2.value_locked = true := by rw [h2]
  have hcand := run_frozen_candidate (a.get_result).2 ops hl
  refine ⟨hcand, ?_⟩
  have key : ∀ b : Anytime T, b.poisoned = false →
      ((run b ops).get_result).1 = (run b ops).current_best := by
    intro b hb
    have hrb : (run b ops).poisoned = false := by rw [run_poisoned]; exact hb
    simp [Anytime.get_result, hrb]
  have h2p : (a.get_result).2.poisoned = false := by rw [h2]; exact h
  rw [key _ h2p, hcand, h2, hv]

theorem commit_value_is_stable_witness :
    ((⟨some 2, false, false⟩ : Anytime Nat).poisoned = false)
    ∧ ((run ((⟨some 2, false, false⟩ : Anytime Nat).get_result).2
          [Op.update 9, Op.commit]).current_best
        = ((⟨some 2, false, false⟩ : Anytime Nat).get_result).2.current_best
      ∧ ((run ((⟨some 2, false, false⟩ : Anytime Nat).get_result).2
            [Op.update 9, Op.commit]).get_result).1
        = ((⟨some 2, false, false⟩ : Anytime Nat).get_result).1) :=
  ⟨rfl, commit_value_is_stable _ [Op.update 9, Op.commit] rfl⟩

/-- C3: on a poisoned mutex, `update_result` leaves the state (in
particular the candidate) unmodified and returns normally, and
`get_result` returns `none` and leaves the state unchanged — in
particular it does not set the frozen flag. -/
theorem poisoned_lock_noop_and_does_not_freeze {T : Type} (a : Anytime T)
    (v : T) (h : a.poisoned = true) :
    a.update_result v = a ∧ a.get_result = (none, a) := by
  constructor
  · simp [Anytime.update_result, h]
  · simp [Anytime.get_result, h]

theorem poisoned_lock_noop_and_does_not_freeze_witness :
    ((⟨some 1, false, true⟩ : Anytime Nat).poisoned = true)
    ∧ ((⟨some 1, false, true⟩ : Anytime Nat).update_result 4
        = (⟨some 1, false, true⟩ : Anytime Nat)
      ∧ (⟨some 1, false, true⟩ : Anytime Nat).get_result
        = (none, (⟨some 1, false, true⟩ : Anytime Nat))) :=
  ⟨rfl, poisoned_lock_noop_and_does_not_freeze _ 4 rfl⟩

/-- C4 (code bug): the claim says no operation panics even on a poisoned
mutex, but `is_ready` calls `self.current_best.lock().unwrap()`, which
panics when the holder is not yet frozen and the mutex is poisoned; the
panic is modelled as output `none`.  This evaluates the code at that
failing input. -/
theorem is_ready_panics_on_poisoned_unfrozen :
    ((⟨none, false, true⟩ : Anytime Nat).is_ready).1 = none := rfl

/-- C5: on a freshly created holder, `get_result` returns `none`;
afterwards `is_final` returns true; `update_result 5` is then a no-op on
the state; and a further `get_result` still returns `none`. -/
theorem commit_on_fresh_holder_scenario :
    (((Anytime.new : Anytime Nat).get_result).1 = none)
    ∧ ((((Anytime.new : Anytime Nat).get_result).2.is_final).1 = true)
    ∧ (((Anytime.new : Anytime Nat).get_result).2.update_result 5
        = ((Anytime.new : Anytime Nat).get_result).2)
    ∧ ((((Anytime.new : Anytime Nat).get_result).2.update_result 5).get_result).1
        = none := by
  refine ⟨rfl, rfl, ?_, rfl⟩
  decide

/-- C6: a freshly created holder has `is_final() == false` and
`is_ready() == false`. -/
theorem new_not_final_not_ready (T : Type) :
    ((Anytime.new : Anytime T).is_final).1 = false
    ∧ ((Anytime.new : Anytime T).is_ready).1 = some false :=
  ⟨rfl, rfl⟩

/-- C7: after a single `update_result v` on a fresh holder, `is_ready`
returns true and `is_final` still returns false. -/
theorem update_makes_ready_not_final (T : Type) (v : T) :
    (((Anytime.new : Anytime T).update_result v).is_ready).1 = some true
    ∧ (((Anytime.new : Anytime T).update_result v).is_final).1 = false :=
  ⟨rfl, rfl⟩

/-- C8: `is_final` has no side effects: the state after the call equals
the state before it, and the returned value is the current frozen
flag. -/
theorem is_final_has_no_side_effects {T : Type} (a : Anytime T) :
    (a.is_final).2 = a ∧ (a.is_final).1 = a.value_locked :=
  ⟨rfl, rfl⟩

/-- C9: on a holder whose lock is not poisoned, `is_final` returning true
implies `is_ready` returns true. -/
theorem final_implies_ready {T : Type} (a : Anytime T)
    (hp : a.poisoned = false) (hf : (a.is_final).1 = true) :
    (a.is_ready).1 = some true := by
  simp [Anytime.is_ready, hf]

theorem final_implies_ready_witness :
    ((⟨none, true, false⟩ : Anytime Nat).poisoned = false)
    ∧ (((⟨none, true, false⟩ : Anytime Nat).is_final).1 = true)
    ∧ ((⟨none, true, false⟩ : Anytime Nat).is_ready).1 = some true :=
  ⟨rfl, rfl, final_implies_ready _ rfl rfl⟩

/-- C10: once the candidate is present, no sequence of operations makes
it absent again, and (absent lock poisoning) `is_ready` keeps returning
true after any such sequence. -/
theorem candidate_presence_monotone {T : Type} (a : Anytime T)
    (ops : List (Op T)) (h : a.current_best.isSome = true)
    (hp : a.poisoned = false) :
    (run a ops).current_best.isSome = true
    ∧ ((run a ops).is_ready).1 = some true := by
  have hs := run_isSome_mono a ops h
  refine ⟨hs, ?_⟩
  by_cases hf : (run a ops).value_locked
  · simp [Anytime.is_ready, Anytime.is_final, hf]
  · have hp' : (run a ops).poisoned = false := by rw [run_poisoned]; exact hp
    simp [Anytime.is_ready, Anytime.is_final, hf, hp', hs]

theorem candidate_presence_monotone_witness :
    ((⟨some 1, false, false⟩ : Anytime Nat).current_best.isSome = true)
    ∧ ((⟨some 1, false, false⟩ : Anytime Nat).poisoned = false)
    ∧ ((run (⟨some 1, false, false⟩ : Anytime Nat)
          [Op.commit, Op.update 2]).current_best.isSome = true
      ∧ ((run (⟨some 1, false, false⟩ : Anytime Nat)
            [Op.commit, Op.update 2]).is_ready).1 = some true) :=
  ⟨rfl, rfl, candidate_presence_monotone _ [Op.commit, Op.update 2] rfl rfl⟩
